import Mathlib

/-!
Shallow embedding of the multiplexed process handle of `iterpopen.py`
(class `Popen`: `__iter__`, `communicate`, `poll`, `wait`) and of the two
`RunCmd` helpers (`iterpopen.RunCmd` and `gke_onprem_test.RunCmd`).

Bytes are lists of naturals; the newline byte is 10.  The OS is modelled by
an explicit schedule of events: each event is either a poll timeout (empty
ready list), an EINTR, or a nonempty batch of per-descriptor readiness
events; a read event carries how much data the OS chooses to deliver.  The
child process's output on each channel is a fixed byte stream stored in the
state (`outRem` / `errRem`); a read takes a prefix of it, and end-of-file
occurs exactly when the stream is exhausted.  `sent` is a history variable
recording the bytes actually handed to `os.write` for the child's stdin.
-/

namespace IterPopen

/-- Bytes are modelled as lists of natural numbers (one per byte). -/
abbrev Bytes := List Nat

/-- Models `(b.find(b'\n') + 1) or (len(b) + 1)` as `lineSize b`: the length of
the shortest prefix of `b` ending in a newline (byte 10), or `b.length + 1`
when `b` has no newline, so that taking `lineSize b` bytes takes all of `b`
and the `itersize <= len(buff)` test fails. -/
def lineSize : Bytes → Nat
  | [] => 1
  | b :: rest => if b = 10 then 1 else lineSize rest + 1

/-- The last byte of a byte string, if any. -/
def lastByte : Bytes → Option Nat
  | [] => none
  | [x] => some x
  | _ :: y :: r => lastByte (y :: r)

/-- The block size used by the drain loop for one buffer:
`itersize = (buff.find(b'\n')+1) or (len(buff)+1)` when `bufsize == 1`, and
the fixed `bufsize` otherwise (the drain loop only runs with `bufsize >= 1`;
for `bufsize > 1` `itersize` still holds the value set at iterator start). -/
def extractSize (bufsize : Int) (b : Bytes) : Nat :=
  if bufsize = 1 then lineSize b else bufsize.toNat

/-- One block extraction of the buffered-mode drain loop:
`if buff and (len(buff) >= itersize or closed): yield buff[:itersize]` and
keep `buff[itersize:]`; otherwise extract nothing. -/
def extract (bufsize : Int) (closed : Bool) (b : Bytes) : Bytes × Bytes :=
  if b ≠ [] ∧ (extractSize bufsize b ≤ b.length ∨ closed = true) then
    (b.take (extractSize bufsize b), b.drop (extractSize bufsize b))
  else ([], b)

/-- The buffered-mode drain loop (`while outdata or errdata:` with
`bufsize >= 1`), written with explicit fuel; `drain` passes fuel strictly
larger than the combined buffer length, which the loop never exhausts
because every productive round shortens the buffers.  Returns the yielded
`(outdata, errdata)` pairs (a pair is yielded iff at least one side is
nonempty, as in `if outdata or errdata: yield`) and the two final buffers. -/
def drainGo (bufsize : Int) (oc ec : Bool) :
    Nat → Bytes → Bytes → List (Bytes × Bytes) × Bytes × Bytes
  | 0, ob, eb => ([], ob, eb)
  | fuel + 1, ob, eb =>
    let po := extract bufsize oc ob
    let pe := extract bufsize ec eb
    if po.1 = [] ∧ pe.1 = [] then ([], ob, eb)
    else
      let r := drainGo bufsize oc ec fuel po.2 pe.2
      ((po.1, pe.1) :: r.1, r.2)

/-- The per-step drain of the accumulation buffers (`__iter__`, after one
readiness batch).  For `bufsize < 1` all buffered data of both channels is
yielded at once (the loop runs exactly one productive round); for
`bufsize >= 1` blocks are extracted per `extract` until neither side
produces one.  `oc` / `ec` say whether stdout / stderr are closed. -/
def drain (bufsize : Int) (oc ec : Bool) (ob eb : Bytes) :
    List (Bytes × Bytes) × Bytes × Bytes :=
  if bufsize < 1 then
    if ob = [] ∧ eb = [] then ([], ob, eb) else ([(ob, eb)], [], [])
  else drainGo bufsize oc ec (ob.length + eb.length + 1) ob eb

/-- Concatenation of the stdout components of the yielded pairs. -/
def joinOut (ys : List (Bytes × Bytes)) : Bytes :=
  ys.foldr (fun p a => p.1 ++ a) []

/-- Concatenation of the stderr components of the yielded pairs. -/
def joinErr (ys : List (Bytes × Bytes)) : Bytes :=
  ys.foldr (fun p a => p.2 ++ a) []

/-- The state of one `Popen` handle, together with the environment it is
iterating against.  `bufsize`, `timeout` and `input` are the attributes set
in `__init__`; `outbuff` / `errbuff` are the persistent accumulation
buffers; `hasOut` / `hasErr` say whether stdout / stderr were configured as
PIPE or PTY; `stdinOpen` / `outOpen` / `errOpen` say whether the descriptor
is still open (open descriptors are exactly the registered ones);
`outPty` / `errPty` say whether the descriptor is a pseudo-terminal.
`outRem` / `errRem` are the bytes the child process will still write on
each channel, and `sent` is the history of bytes written to its stdin. -/
structure St where
  bufsize : Int
  timeout : Option Nat
  input : Bytes
  sent : Bytes
  hasOut : Bool
  hasErr : Bool
  stdinOpen : Bool
  outOpen : Bool
  errOpen : Bool
  outPty : Bool
  errPty : Bool
  outbuff : Bytes
  errbuff : Bytes
  outRem : Bytes
  errRem : Bytes
deriving DecidableEq, Repr

/-- Reachable-state invariant: a closed output channel has delivered its
whole stream and its buffer was flushed by the drain that saw it close, and
stdin stays registered only while input remains. -/
def Wf (s : St) : Prop :=
  (s.outOpen = false → s.outbuff = [] ∧ s.outRem = []) ∧
  (s.errOpen = false → s.errbuff = [] ∧ s.errRem = []) ∧
  (s.stdinOpen = true → s.input ≠ [])

instance (s : St) : Decidable (Wf s) := by
  unfold Wf
  infer_instance

/-- The spawn-time configuration fields, which no iteration step touches. -/
def configEq (a b : St) : Prop :=
  a.bufsize = b.bufsize ∧ a.timeout = b.timeout ∧ a.hasOut = b.hasOut ∧
  a.hasErr = b.hasErr ∧ a.outPty = b.outPty ∧ a.errPty = b.errPty

/-- Errors raised by `__iter__`: `TimeoutError`, `PollError`, and a
propagated low-level `OSError`/`IOError` carrying its errno. -/
inductive IterErr
  | timeoutError
  | pollError
  | ioError (eno : Nat)
deriving DecidableEq, Repr

instance {e : Type u} {a : Type v} [DecidableEq e] [DecidableEq a] :
    DecidableEq (Except e a) := fun x y =>
  match x, y with
  | .ok u, .ok v =>
    if h : u = v then .isTrue (by rw [h]) else .isFalse (by simp [h])
  | .ok u, .error v => .isFalse (by simp)
  | .error u, .ok v => .isFalse (by simp)
  | .error u, .error v =>
    if h : u = v then .isTrue (by rw [h]) else .isFalse (by simp [h])

/-- One per-descriptor readiness event inside a poll batch: an
error/invalid poll condition (POLLERR/POLLNVAL), write-readiness of stdin,
read-readiness of stdout/stderr (`n` bounds how much the OS delivers or
accepts this step), or an `OSError`/`IOError` raised by `os.read` with the
given errno. -/
inductive FdEv
  | pollBad
  | writeIn (n : Nat)
  | readOut (n : Nat)
  | readErr (n : Nat)
  | readExnOut (eno : Nat)
  | readExnErr (eno : Nat)
deriving DecidableEq, Repr

/-- One iteration of the `while files:` loop as seen from `poller.poll`:
the poll call was interrupted (EINTR, retried), returned nothing ready
(timeout), or returned a nonempty batch of ready descriptors. -/
inductive Ev
  | eintr
  | timeout
  | batch (b : List FdEv)
deriving DecidableEq, Repr

/-- The read size: 1 MiB for `bufsize < 1` (as much as possible), 1 KiB for
line buffering, and `bufsize` itself for block buffering. -/
def itersizeRead (s : St) : Nat :=
  if s.bufsize < 1 then 2 ^ 20 else if s.bufsize = 1 then 2 ^ 10 else s.bufsize.toNat

/-- The slice of pending input handed to `os.write`: up to and including
the first newline when `bufsize == 1` (all of it when it has no newline),
and `input[:itersize]` otherwise, where `itersize` is 1 MiB for
`bufsize < 1` and `bufsize` for block buffering. -/
def writeChunkReq (s : St) : Bytes :=
  if s.bufsize = 1 then s.input.take (lineSize s.input)
  else s.input.take (if s.bufsize < 1 then 2 ^ 20 else s.bufsize.toNat)

/-- Whether any descriptor is still registered (`while files:`). -/
def filesOpen (s : St) : Bool := s.stdinOpen || s.outOpen || s.errOpen

/-- Processing of one ready descriptor (`for fd, event in ready:`).
`none` means the event is impossible against this state (the descriptor is
not registered, or the OS reported a PTY end-of-file error while the child
still had bytes to deliver).  A POLLERR/POLLNVAL condition raises
`PollError`.  A write-ready stdin writes a prefix of `writeChunkReq` (the
OS accepts at least one byte, at most `n + 1`), and stdin is closed exactly
when no input remains.  A read-ready stdout/stderr appends up to
`itersizeRead` bytes of the child's stream to the accumulation buffer; a
zero-length read (stream exhausted) closes and deregisters the descriptor.
An `OSError`/`IOError` from `os.read` is converted to end-of-file iff the
descriptor is a tty and the errno is 5 (EIO), and propagates otherwise. -/
def fdStep (s : St) (e : FdEv) : Option (Except IterErr St) :=
  match e with
  | .pollBad =>
    if filesOpen s then some (.error .pollError) else none
  | .writeIn n =>
    if s.stdinOpen ∧ s.input ≠ [] then
      let w := min (n + 1) (writeChunkReq s).length
      let rest := s.input.drop w
      some (.ok { s with sent := s.sent ++ s.input.take w, input := rest,
                         stdinOpen := !rest.isEmpty })
    else none
  | .readOut n =>
    if s.outOpen then
      if s.outRem = [] then some (.ok { s with outOpen := false })
      else
        let k := min (n + 1) (min (itersizeRead s) s.outRem.length)
        some (.ok { s with outbuff := s.outbuff ++ s.outRem.take k,
                           outRem := s.outRem.drop k })
    else none
  | .readErr n =>
    if s.errOpen then
      if s.errRem = [] then some (.ok { s with errOpen := false })
      else
        let k := min (n + 1) (min (itersizeRead s) s.errRem.length)
        some (.ok { s with errbuff := s.errbuff ++ s.errRem.take k,
                           errRem := s.errRem.drop k })
    else none
  | .readExnOut eno =>
    if s.outOpen then
      if s.outPty ∧ eno = 5 then
        if s.outRem = [] then some (.ok { s with outOpen := false }) else none
      else some (.error (.ioError eno))
    else none
  | .readExnErr eno =>
    if s.errOpen then
      if s.errPty ∧ eno = 5 then
        if s.errRem = [] then some (.ok { s with errOpen := false }) else none
      else some (.error (.ioError eno))
    else none

/-- Sequential processing of one readiness batch; stops at the first raised
error (the raising event itself does not mutate the state). -/
def fdSteps : St → List FdEv → Option (St × Option IterErr)
  | s, [] => some (s, none)
  | s, e :: es =>
    match fdStep s e with
    | none => none
    | some (.error err) => some (s, some err)
    | some (.ok s1) => fdSteps s1 es

/-- Outcome of one iteration of the multiplexer loop: either a new state
with the chunks yielded by this step's drain, or a raised error. -/
inductive StepRes
  | ok (s : St) (ys : List (Bytes × Bytes))
  | raised (e : IterErr) (s : St)
deriving DecidableEq, Repr

/-- One full iteration of the `while files:` loop: poll (EINTR retries,
an empty ready list raises `TimeoutError`), then the batch of ready
descriptors, then the drain of the accumulation buffers.  An exception
skips the drain.  The drain's closed flags are the channels' states after
the batch, as `self.stdout.closed` is read at drain time. -/
def iterStep (s : St) (ev : Ev) : Option StepRes :=
  match ev with
  | .eintr => some (.ok s [])
  | .timeout => some (.raised .timeoutError s)
  | .batch [] => none
  | .batch (e :: es) =>
    match fdSteps s (e :: es) with
    | none => none
    | some (s1, some err) => some (.raised err s1)
    | some (s1, none) =>
      let d := drain s1.bufsize (!s1.outOpen) (!s1.errOpen) s1.outbuff s1.errbuff
      some (.ok { s1 with outbuff := d.2.1, errbuff := d.2.2 } d.1)

/-- Iterator start-up: stdin is registered only when pending input remains,
otherwise it is closed immediately; stdout/stderr are registered iff they
are open. -/
def iterInit (s : St) : St :=
  { s with stdinOpen := s.stdinOpen && !s.input.isEmpty }

/-- Result of driving one iterator: the loop ended with every descriptor
closed (followed by the final `self.wait()`), or an error was raised, or
the event schedule was exhausted with descriptors still open. `ys` are the
chunks yielded to the consumer so far. -/
inductive RunRes
  | finished (s : St) (ys : List (Bytes × Bytes))
  | raised (e : IterErr) (s : St) (ys : List (Bytes × Bytes))
  | stuck (s : St) (ys : List (Bytes × Bytes))
deriving DecidableEq, Repr

/-- The state carried by a run result. -/
def RunRes.state : RunRes → St
  | .finished s _ => s
  | .raised _ s _ => s
  | .stuck s _ => s

/-- The chunks carried by a run result. -/
def RunRes.ys : RunRes → List (Bytes × Bytes)
  | .finished _ ys => ys
  | .raised _ _ ys => ys
  | .stuck _ ys => ys

/-- What one processed readiness event preserves: the configuration fields,
the per-channel concatenations (buffered plus still-to-come bytes, and sent
plus pending input), and the well-formedness clauses. -/
def stepInv (s s' : St) : Prop :=
  configEq s' s ∧
  s'.outbuff ++ s'.outRem = s.outbuff ++ s.outRem ∧
  s'.errbuff ++ s'.errRem = s.errbuff ++ s.errRem ∧
  s'.sent ++ s'.input = s.sent ++ s.input ∧
  ((s.outOpen = false → s.outRem = []) → (s'.outOpen = false → s'.outRem = [])) ∧
  ((s.errOpen = false → s.errRem = []) → (s'.errOpen = false → s'.errRem = [])) ∧
  ((s.stdinOpen = true → s.input ≠ []) → (s'.stdinOpen = true → s'.input ≠ []))

/-- The `while files:` loop over an event schedule. -/
def iterRunAux : List Ev → St → List (Bytes × Bytes) → Option RunRes
  | [], s, ys => if filesOpen s then some (.stuck s ys) else some (.finished s ys)
  | ev :: rest, s, ys =>
    if filesOpen s then
      match iterStep s ev with
      | none => none
      | some (.raised e s1) => some (.raised e s1 ys)
      | some (.ok s1 ny) => iterRunAux rest s1 (ys ++ ny)
    else some (.finished s ys)

/-- One whole `__iter__` generator: start-up, then the loop. -/
def iterRun (s : St) (evs : List Ev) : Option RunRes :=
  iterRunAux evs (iterInit s) []

/-- Process-management calls made by `communicate` outside the iterator. -/
inductive Act
  | kill
  | wait
deriving DecidableEq, Repr

/-- Popen.communicate(input): append the extra input to the pending
input, force `bufsize = -1`, drain the iterator to completion and join the
chunks per configured channel (`None` for a channel that was not a
pipe/PTY).  On `TimeoutError` the process is killed and reaped before the
error is re-raised; other errors propagate as they are.  The returned
`List Act` records the `kill`/`wait` calls in order (a normal completion
ends with the iterator's own `self.wait()`). -/
def communicate (s : St) (extra : Option Bytes) (evs : List Ev) :
    Option (List Act × St × Except IterErr (Option Bytes × Option Bytes)) :=
  let s1 : St := { s with input := s.input ++ extra.getD [], bufsize := -1 }
  match iterRun s1 evs with
  | none => none
  | some (.stuck _ _) => none
  | some (.finished s2 ys) =>
    some ([.wait], s2,
      .ok (if s2.hasOut then some (joinOut ys) else none,
           if s2.hasErr then some (joinErr ys) else none))
  | some (.raised e s2 _) =>
    if e = .timeoutError then some ([.kill, .wait], s2, .error e)
    else some ([], s2, .error e)

/-- The millisecond argument handed to every `poller.poll` call:
`self.timeout and self.timeout*1000.0`, i.e. no bound when `timeout` is
`None` and the full configured timeout otherwise — the same full value on
every loop iteration. -/
def pollArgMs (s : St) : Option Nat := s.timeout.map (fun t => t * 1000)

/-- A timed event: `d` milliseconds elapsed inside this step's poll call
before it returned. -/
structure TEv where
  d : Nat
  ev : Ev
deriving DecidableEq, Repr

/-- OS guarantee for one poll call: a poll with millisecond bound `m`
blocks at most `m`; an unbounded poll never returns an empty ready list. -/
def durOkB (s : St) (t : TEv) : Bool :=
  match pollArgMs s with
  | none => match t.ev with
    | Ev.timeout => false
    | _ => true
  | some m => decide (t.d ≤ m)

/-- A timed schedule is consistent with the code's poll calls: every step
satisfies `durOkB` against the state it polls from. -/
def timedOkB : St → List TEv → Bool
  | _, [] => true
  | s, t :: ts =>
    durOkB s t &&
    (match iterStep s t.ev with
     | some (.ok s1 _) => timedOkB s1 ts
     | _ => true)

/-- The property claimed of the loop: each poll call blocks for at most the
portion of the timeout still remaining after the time already spent
(`spent`) in earlier steps. -/
def remainingBoundB : St → Nat → List TEv → Bool
  | _, _, [] => true
  | s, spent, t :: ts =>
    (match pollArgMs s with
     | none => true
     | some m => decide (t.d + spent ≤ m)) &&
    (match iterStep s t.ev with
     | some (.ok s1 _) => remainingBoundB s1 (spent + t.d) ts
     | _ => true)

/-- The exception `ReturncodeError(returncode, cmd)` of `iterpopen.py`. -/
structure RcError where
  returncode : Int
  cmd : String
deriving DecidableEq, Repr

/-- What `iterpopen.RunCmd` returns, depending on which of stdout/stderr
were captured. -/
inductive RunOut
  | both (o e : Bytes)
  | onlyOut (o : Bytes)
  | onlyErr (e : Bytes)
  | neither
deriving DecidableEq, Repr

/-- Model of `iterpopen.RunCmd` after `communicate` has produced `(stdout, stderr)`
and `wait` has set `returncode`: raise `ReturncodeError(returncode, args)`
when the returncode is non-zero, otherwise return stdout and/or stderr. -/
def RunCmd (cmd : String) (returncode : Int) (stdout stderr : Option Bytes) :
    Except RcError RunOut :=
  if returncode ≠ 0 then .error ⟨returncode, cmd⟩
  else
    match stdout, stderr with
    | some o, some e => .ok (.both o e)
    | some o, none => .ok (.onlyOut o)
    | none, some e => .ok (.onlyErr e)
    | none, none => .ok .neither

/-- The returncode and the two streams produced by one invocation of the
command inside `gke_onprem_test.RetryCmd`. -/
structure ExecResult where
  retcode : Int
  out : Bytes
  err : Bytes
deriving DecidableEq, Repr

/-- How `gke_onprem_test.RunCmd` clamps its timeout: `timeout = max(timeout, 20)`. -/
def gkeTimeout (timeout : Nat) : Nat := max timeout 20

/-- Model of `gke_onprem_test.RunCmd(cmd, timeout, output_file, wait, counter)`:
defines `RetryCmd` (one `Popen` + `communicate` invocation, whose outcome
is `exec`), calls it exactly once, and returns `(0, out + '\n' + err or
out)` on success and `(rc, err)` on failure.  The second component of the
result counts how many times the command was invoked; `wait` and `counter`
are accepted but never read. -/
def gkeRunCmd (timeout : Nat) (wait counter : Nat) (exec : ExecResult) :
    (Int × Bytes) × Nat :=
  if exec.retcode = 0 then
    ((0, if exec.err ≠ [] then exec.out ++ 10 :: exec.err else exec.out), 1)
  else ((exec.retcode, exec.err), 1)

/-- Popen.poll: `self.__race_lock.acquire(blocking=False)`; when the lock
is unavailable it immediately returns the stored `returncode` (possibly
stale) without touching the process; when available it runs the inherited
poll (a non-blocking `waitpid` that records the exit status if the process
has exited).  Result: (returned value, stored returncode afterwards,
whether the lock was acquired). -/
def pollStatus (lockAvail : Bool) (stored osStatus : Option Int) :
    Option Int × Option Int × Bool :=
  if lockAvail then
    match stored with
    | some rc => (some rc, some rc, true)
    | none => (osStatus, osStatus, true)
  else (stored, stored, false)

/-- Popen.wait: acquires the race lock (blocking), then runs the
inherited wait, which reaps and records the exit status `osExit` unless it
was already recorded.  Result: (returned value, stored returncode
afterwards, whether the lock was acquired). -/
def waitStatus (stored : Option Int) (osExit : Int) :
    Int × Option Int × Bool :=
  match stored with
  | some rc => (rc, some rc, true)
  | none => (osExit, some osExit, true)

/-! ### Concrete handles and schedules used as witnesses and counterexamples -/

/-- A fresh handle with line buffering, pending input `"x\ny"`, stdout and
stderr both piped, the child writing `"a\nb"` on stdout and `"c\n"` on
stderr. -/
def c1WSt : St :=
  { bufsize := 1, timeout := some 5, input := [120, 10, 121],
    sent := [], hasOut := true, hasErr := true, stdinOpen := true,
    outOpen := true, errOpen := true, outPty := false, errPty := false,
    outbuff := [], errbuff := [], outRem := [97, 10, 98], errRem := [99, 10] }

/-- A schedule driving `c1WSt` to completion: two stdin writes, a combined
read batch, then the end-of-file reads. -/
def c1WEvs : List Ev :=
  [.batch [.writeIn 99], .batch [.writeIn 99],
   .batch [.readOut 99, .readErr 99], .batch [.readOut 99],
   .batch [.readErr 99]]

/-- The final state of the `c1WSt` run. -/
def c1WFin : St :=
  { bufsize := 1, timeout := some 5, input := [], sent := [120, 10, 121],
    hasOut := true, hasErr := true, stdinOpen := false, outOpen := false,
    errOpen := false, outPty := false, errPty := false, outbuff := [],
    errbuff := [], outRem := [], errRem := [] }

/-- The chunks yielded by the `c1WSt` run. -/
def c1WYs : List (Bytes × Bytes) := [([97, 10], [99, 10]), ([98], [])]

/-- A fresh stdout-only handle, line buffered, the child writing `"h\n"`. -/
def c2WSt : St :=
  { bufsize := 1, timeout := none, input := [], sent := [],
    hasOut := true, hasErr := false, stdinOpen := false, outOpen := true,
    errOpen := false, outPty := false, errPty := false, outbuff := [],
    errbuff := [], outRem := [104, 10], errRem := [] }

/-- A schedule completing `c2WSt`: one full read, then end-of-file. -/
def c2WEvs : List Ev := [.batch [.readOut 99], .batch [.readOut 0]]

/-- The final state of manually iterating `c2WSt`. -/
def c2WFinA : St :=
  { bufsize := 1, timeout := none, input := [], sent := [],
    hasOut := true, hasErr := false, stdinOpen := false, outOpen := false,
    errOpen := false, outPty := false, errPty := false, outbuff := [],
    errbuff := [], outRem := [], errRem := [] }

/-- The final state of `communicate` on `c2WSt` (bufsize forced to -1). -/
def c2WFinB : St :=
  { bufsize := -1, timeout := none, input := [], sent := [],
    hasOut := true, hasErr := false, stdinOpen := false, outOpen := false,
    errOpen := false, outPty := false, errPty := false, outbuff := [],
    errbuff := [], outRem := [], errRem := [] }

/-- The chunks yielded by manually iterating `c2WSt`. -/
def c2WYs : List (Bytes × Bytes) := [([104, 10], [])]

/-- A stdout-only handle with a 1-second timeout whose child still has a
byte to write. -/
def c3WSt : St :=
  { bufsize := 1, timeout := some 1, input := [], sent := [],
    hasOut := true, hasErr := false, stdinOpen := false, outOpen := true,
    errOpen := false, outPty := false, errPty := false, outbuff := [],
    errbuff := [], outRem := [97], errRem := [] }

/-- The state in which `communicate c3WSt` raises `TimeoutError`. -/
def c3WFin : St :=
  { bufsize := -1, timeout := some 1, input := [], sent := [],
    hasOut := true, hasErr := false, stdinOpen := false, outOpen := true,
    errOpen := false, outPty := false, errPty := false, outbuff := [],
    errbuff := [], outRem := [97], errRem := [] }

/-- A stdout-only handle with a 1-second timeout (poll budget 1000 ms), the
child writing two bytes. -/
def c4St : St :=
  { bufsize := 1, timeout := some 1, input := [], sent := [],
    hasOut := true, hasErr := false, stdinOpen := false, outOpen := true,
    errOpen := false, outPty := false, errPty := false, outbuff := [],
    errbuff := [], outRem := [97, 98], errRem := [] }

/-- Two poll steps, each blocking 900 ms — each under the full 1000 ms
budget the code passes to `poll`, but the second exceeds the 100 ms that
remain of the overall timeout. -/
def c4Run : List TEv := [⟨900, .batch [.readOut 0]⟩, ⟨900, .batch [.readOut 0]⟩]

/-- A fresh stdout-only handle with line buffering whose child writes
`"a\nb\nc\n"` — the `printf 'a\nb\nc\n'` scenario. -/
def c5WSt : St :=
  { bufsize := 1, timeout := none, input := [], sent := [],
    hasOut := true, hasErr := false, stdinOpen := false, outOpen := true,
    errOpen := false, outPty := false, errPty := false, outbuff := [],
    errbuff := [], outRem := [97, 10, 98, 10, 99, 10], errRem := [] }

/-- A schedule completing `c5WSt`: one full read, then end-of-file. -/
def c5WEvs : List Ev := [.batch [.readOut 99], .batch [.readOut 0]]

/-- The final state of the `c5WSt` run. -/
def c5WFin : St :=
  { bufsize := 1, timeout := none, input := [], sent := [],
    hasOut := true, hasErr := false, stdinOpen := false, outOpen := false,
    errOpen := false, outPty := false, errPty := false, outbuff := [],
    errbuff := [], outRem := [], errRem := [] }

/-- The three chunks yielded by the `c5WSt` run. -/
def c5WYs : List (Bytes × Bytes) :=
  [([97, 10], []), ([98, 10], []), ([99, 10], [])]

/-- The state of `c5WSt` after its first readiness batch (all six bytes
read and flushed as three lines). -/
def c5WMid : St :=
  { bufsize := 1, timeout := none, input := [], sent := [],
    hasOut := true, hasErr := false, stdinOpen := false, outOpen := true,
    errOpen := false, outPty := false, errPty := false, outbuff := [],
    errbuff := [], outRem := [], errRem := [] }

/-- A handle with fixed-block buffering (`bufsize = 2`) and three pending
input bytes `"abc"`. -/
def c6CexSt : St :=
  { bufsize := 2, timeout := none, input := [97, 98, 99],
    sent := [], hasOut := false, hasErr := false, stdinOpen := true,
    outOpen := false, errOpen := false, outPty := false, errPty := false,
    outbuff := [], errbuff := [], outRem := [], errRem := [] }

/-- The state after one maximally cooperative write step on `c6CexSt`:
only two of the three pending bytes were offered to `os.write`. -/
def c6CexSt' : St :=
  { bufsize := 2, timeout := none, input := [99],
    sent := [97, 98], hasOut := false, hasErr := false, stdinOpen := true,
    outOpen := false, errOpen := false, outPty := false, errPty := false,
    outbuff := [], errbuff := [], outRem := [], errRem := [] }

/-- The `cat` scenario: stdin pipe with input `"hello"`, stdout pipe, the
child echoing `"hello"`. -/
def c6CatSt : St :=
  { bufsize := 1, timeout := some 15,
    input := [104, 101, 108, 108, 111], sent := [], hasOut := true,
    hasErr := false, stdinOpen := true, outOpen := true, errOpen := false,
    outPty := false, errPty := false, outbuff := [], errbuff := [],
    outRem := [104, 101, 108, 108, 111], errRem := [] }

/-- A schedule completing the `cat` scenario inside `communicate`. -/
def c6CatEvs : List Ev :=
  [.batch [.writeIn 99], .batch [.readOut 99], .batch [.readOut 0]]

/-- The final state of the `cat` scenario. -/
def c6CatFin : St :=
  { bufsize := -1, timeout := some 15, input := [],
    sent := [104, 101, 108, 108, 111], hasOut := true, hasErr := false,
    stdinOpen := false, outOpen := false, errOpen := false,
    outPty := false, errPty := false, outbuff := [], errbuff := [],
    outRem := [], errRem := [] }

/-- A handle whose stdout and stderr are PTY-backed, both streams
exhausted. -/
def c7WSt : St :=
  { bufsize := 0, timeout := none, input := [], sent := [],
    hasOut := true, hasErr := true, stdinOpen := false, outOpen := true,
    errOpen := true, outPty := true, errPty := true, outbuff := [],
    errbuff := [], outRem := [], errRem := [] }

/-! ### Basic lemmas about `lineSize`, `lastByte` and `extract` -/

theorem lineSize_pos (b : Bytes) : 1 ≤ lineSize b := by
  cases b with
  | nil => simp [lineSize]
  | cons x r =>
    unfold lineSize
    split <;> omega

theorem lastByte_cons (x : Nat) (t : Bytes) (h : t ≠ []) :
    lastByte (x :: t) = lastByte t := by
  cases t with
  | nil => exact absurd rfl h
  | cons y r => rfl

theorem take_ne_nil_of_pos (n : Nat) (h : 1 ≤ n) (b : Bytes) (hb : b ≠ []) :
    b.take n ≠ [] := by
  cases b with
  | nil => exact absurd rfl hb
  | cons x r =>
    cases n with
    | zero => omega
    | succ m => simp

theorem lineSize_take_newline (b : Bytes) (h : lineSize b ≤ b.length) :
    lastByte (b.take (lineSize b)) = some 10 := by
  induction b with
  | nil => simp [lineSize] at h
  | cons x r ih =>
    by_cases hx : x = 10
    · subst hx
      simp [lineSize, lastByte]
    · have hls : lineSize (x :: r) = lineSize r + 1 := by simp [lineSize, hx]
      rw [hls] at h ⊢
      simp only [List.length_cons] at h
      have h2 : lineSize r ≤ r.length := by omega
      have hrne : r ≠ [] := by
        intro hr
        subst hr
        have := lineSize_pos ([] : Bytes)
        simp at h2
        omega
      have htne : r.take (lineSize r) ≠ [] :=
        take_ne_nil_of_pos _ (lineSize_pos r) r hrne
      rw [List.take_succ_cons, lastByte_cons x _ htne]
      exact ih h2

theorem extractSize_pos (bz : Int) (hbz : 1 ≤ bz) (b : Bytes) :
    1 ≤ extractSize bz b := by
  unfold extractSize
  split
  · exact lineSize_pos b
  · omega

theorem extract_append (bz : Int) (c : Bool) (b : Bytes) :
    (extract bz c b).1 ++ (extract bz c b).2 = b := by
  unfold extract
  split
  · exact List.take_append_drop _ b
  · simp

theorem extract_fst_nil (bz : Int) (hbz : 1 ≤ bz) (c : Bool) (b : Bytes)
    (h : (extract bz c b).1 = []) : (extract bz c b).2 = b := by
  unfold extract at h ⊢
  split at h
  · rename_i hcond
    exfalso
    exact take_ne_nil_of_pos _ (extractSize_pos bz hbz b) b hcond.1 h
  · rename_i hcond
    rw [if_neg hcond]

theorem extract_snd_le (bz : Int) (c : Bool) (b : Bytes) :
    (extract bz c b).2.length ≤ b.length := by
  unfold extract
  split
  · simp
  · exact Nat.le_refl _

theorem extract_snd_lt (bz : Int) (c : Bool) (b : Bytes)
    (h : (extract bz c b).1 ≠ []) : (extract bz c b).2.length < b.length := by
  unfold extract at h ⊢
  split at h
  · rename_i hcond
    have hiz : 1 ≤ extractSize bz b := by
      by_contra hn
      have : extractSize bz b = 0 := by omega
      simp [this] at h
    have hb : 1 ≤ b.length := by
      cases b with
      | nil => exact absurd rfl hcond.1
      | cons x r => simp
    rw [if_pos hcond]
    show (b.drop (extractSize bz b)).length < b.length
    simp only [List.length_drop]
    omega
  · exact absurd rfl h

theorem extract_closed_fst (bz : Int) (hbz : 1 ≤ bz) (ec : Bool) (b : Bytes)
    (hb : b ≠ []) : (extract bz true b).1 ≠ [] := by
  unfold extract
  rw [if_pos ⟨hb, Or.inr rfl⟩]
  exact take_ne_nil_of_pos _ (extractSize_pos bz hbz b) b hb

theorem extractSize_one (b : Bytes) : extractSize 1 b = lineSize b := by
  simp [extractSize]

theorem extract_line_lastByte (c : Bool) (b : Bytes)
    (h : (extract 1 c b).1 ≠ []) :
    lastByte (extract 1 c b).1 = some 10 ∨ c = true := by
  cases c with
  | true => exact Or.inr rfl
  | false =>
    left
    unfold extract at h ⊢
    split at h
    · rename_i hcond
      have hle : extractSize 1 b ≤ b.length := by
        rcases hcond.2 with h1 | h1
        · exact h1
        · simp at h1
      rw [if_pos hcond]
      rw [extractSize_one] at hle
      show lastByte (b.take (extractSize 1 b)) = some 10
      rw [extractSize_one]
      exact lineSize_take_newline b hle
    · exact absurd rfl h

/-! ### Lemmas about the drain loop -/

theorem joinOut_nil : joinOut [] = [] := rfl

theorem joinErr_nil : joinErr [] = [] := rfl

theorem joinOut_cons (p : Bytes × Bytes) (ys : List (Bytes × Bytes)) :
    joinOut (p :: ys) = p.1 ++ joinOut ys := rfl

theorem joinErr_cons (p : Bytes × Bytes) (ys : List (Bytes × Bytes)) :
    joinErr (p :: ys) = p.2 ++ joinErr ys := rfl

theorem joinOut_append (a b : List (Bytes × Bytes)) :
    joinOut (a ++ b) = joinOut a ++ joinOut b := by
  induction a with
  | nil => simp [joinOut]
  | cons p t ih =>
    simp only [List.cons_append, joinOut_cons, ih, List.append_assoc]

theorem joinErr_append (a b : List (Bytes × Bytes)) :
    joinErr (a ++ b) = joinErr a ++ joinErr b := by
  induction a with
  | nil => simp [joinErr]
  | cons p t ih =>
    simp only [List.cons_append, joinErr_cons, ih, List.append_assoc]

theorem drainGo_join (bz : Int) (oc ec : Bool) :
    ∀ (fuel : Nat) (ob eb : Bytes),
      joinOut (drainGo bz oc ec fuel ob eb).1 ++ (drainGo bz oc ec fuel ob eb).2.1 = ob ∧
      joinErr (drainGo bz oc ec fuel ob eb).1 ++ (drainGo bz oc ec fuel ob eb).2.2 = eb := by
  intro fuel
  induction fuel with
  | zero =>
    intro ob eb
    simp [drainGo, joinOut, joinErr]
  | succ n ih =>
    intro ob eb
    simp only [drainGo]
    split
    · simp [joinOut, joinErr]
    · have hpo := extract_append bz oc ob
      have hpe := extract_append bz ec eb
      have hr := ih (extract bz oc ob).2 (extract bz ec eb).2
      constructor
      · rw [joinOut_cons, List.append_assoc, hr.1]
        exact hpo
      · rw [joinErr_cons, List.append_assoc, hr.2]
        exact hpe

theorem drainGo_closed_out (bz : Int) (hbz : 1 ≤ bz) (ec : Bool) :
    ∀ (fuel : Nat) (ob eb : Bytes), ob.length + eb.length < fuel →
      (drainGo bz true ec fuel ob eb).2.1 = [] := by
  intro fuel
  induction fuel with
  | zero =>
    intro ob eb h
    omega
  | succ n ih =>
    intro ob eb h
    simp only [drainGo]
    split
    · rename_i hstop
      by_contra hob
      have hob' : ob ≠ [] := by
        intro hh
        subst hh
        exact hob rfl
      exact extract_closed_fst bz hbz true ob hob' hstop.1
    · rename_i hstop
      apply ih
      rcases Decidable.em ((extract bz true ob).1 = []) with hpo | hpo
      · have hpe : (extract bz ec eb).1 ≠ [] := by
          intro hh
          exact hstop ⟨hpo, hh⟩
        have h1 := extract_fst_nil bz hbz true ob hpo
        have h2 := extract_snd_lt bz ec eb hpe
        rw [h1]
        omega
      · have h1 := extract_snd_lt bz true ob hpo
        have h2 := extract_snd_le bz ec eb
        omega

theorem drainGo_closed_err (bz : Int) (hbz : 1 ≤ bz) (oc : Bool) :
    ∀ (fuel : Nat) (ob eb : Bytes), ob.length + eb.length < fuel →
      (drainGo bz oc true fuel ob eb).2.2 = [] := by
  intro fuel
  induction fuel with
  | zero =>
    intro ob eb h
    omega
  | succ n ih =>
    intro ob eb h
    simp only [drainGo]
    split
    · rename_i hstop
      by_contra heb
      have heb' : eb ≠ [] := by
        intro hh
        subst hh
        exact heb rfl
      exact extract_closed_fst bz hbz oc eb heb' hstop.2
    · rename_i hstop
      apply ih
      rcases Decidable.em ((extract bz true eb).1 = []) with hpe | hpe
      · have hpo : (extract bz oc ob).1 ≠ [] := by
          intro hh
          exact hstop ⟨hh, hpe⟩
        have h1 := extract_fst_nil bz hbz true eb hpe
        have h2 := extract_snd_lt bz oc ob hpo
        rw [h1]
        omega
      · have h1 := extract_snd_lt bz true eb hpe
        have h2 := extract_snd_le bz oc ob
        omega

theorem drainGo_line (oc ec : Bool) :
    ∀ (fuel : Nat) (ob eb : Bytes) (p : Bytes × Bytes),
      p ∈ (drainGo 1 oc ec fuel ob eb).1 →
      (p.1 ≠ [] → lastByte p.1 = some 10 ∨ oc = true) ∧
      (p.2 ≠ [] → lastByte p.2 = some 10 ∨ ec = true) := by
  intro fuel
  induction fuel with
  | zero =>
    intro ob eb p hp
    simp [drainGo] at hp
  | succ n ih =>
    intro ob eb p hp
    simp only [drainGo] at hp
    split at hp
    · simp at hp
    · simp only [List.mem_cons] at hp
      rcases hp with hp | hp
      · subst hp
        exact ⟨fun h1 => extract_line_lastByte oc ob h1,
               fun h2 => extract_line_lastByte ec eb h2⟩
      · exact ih _ _ p hp

/-! ### Lemmas about `drain` -/

theorem drain_join (bz : Int) (oc ec : Bool) (ob eb : Bytes) :
    joinOut (drain bz oc ec ob eb).1 ++ (drain bz oc ec ob eb).2.1 = ob ∧
    joinErr (drain bz oc ec ob eb).1 ++ (drain bz oc ec ob eb).2.2 = eb := by
  unfold drain
  split
  · split
    · simp [joinOut, joinErr]
    · simp [joinOut, joinErr]
  · exact drainGo_join bz oc ec _ ob eb

theorem drain_closed_out (bz : Int) (ec : Bool) (ob eb : Bytes) :
    (drain bz true ec ob eb).2.1 = [] := by
  unfold drain
  split
  · split
    · rename_i hc
      exact hc.1
    · rfl
  · rename_i hge
    exact drainGo_closed_out bz (by omega) ec _ ob eb (by omega)

theorem drain_closed_err (bz : Int) (oc : Bool) (ob eb : Bytes) :
    (drain bz oc true ob eb).2.2 = [] := by
  unfold drain
  split
  · split
    · rename_i hc
      exact hc.2
    · rfl
  · rename_i hge
    exact drainGo_closed_err bz (by omega) oc _ ob eb (by omega)

theorem drain_line (oc ec : Bool) (ob eb : Bytes) (p : Bytes × Bytes)
    (hp : p ∈ (drain 1 oc ec ob eb).1) :
    (p.1 ≠ [] → lastByte p.1 = some 10 ∨ oc = true) ∧
    (p.2 ≠ [] → lastByte p.2 = some 10 ∨ ec = true) := by
  unfold drain at hp
  rw [if_neg (by omega)] at hp
  exact drainGo_line oc ec _ ob eb p hp

/-! ### Per-event and per-batch invariants of the multiplexer loop -/

theorem stepInv_refl (s : St) : stepInv s s :=
  ⟨⟨rfl, rfl, rfl, rfl, rfl, rfl⟩, rfl, rfl, rfl,
   fun hp => hp, fun hp => hp, fun hp => hp⟩

theorem stepInv_trans {s s1 s2 : St} (h1 : stepInv s s1) (h2 : stepInv s1 s2) :
    stepInv s s2 := by
  obtain ⟨⟨c1, c2, c3, c4, c5, c6⟩, o1, e1, i1, po1, pe1, pi1⟩ := h1
  obtain ⟨⟨d1, d2, d3, d4, d5, d6⟩, o2, e2, i2, po2, pe2, pi2⟩ := h2
  refine ⟨⟨?_, ?_, ?_, ?_, ?_, ?_⟩, ?_, ?_, ?_, ?_, ?_, ?_⟩
  · rw [d1, c1]
  · rw [d2, c2]
  · rw [d3, c3]
  · rw [d4, c4]
  · rw [d5, c5]
  · rw [d6, c6]
  · rw [o2, o1]
  · rw [e2, e1]
  · rw [i2, i1]
  · exact fun hp => po2 (po1 hp)
  · exact fun hp => pe2 (pe1 hp)
  · exact fun hp => pi2 (pi1 hp)

theorem fdStep_ok (s s' : St) (e : FdEv) (h : fdStep s e = some (.ok s')) :
    stepInv s s' := by
  cases e with
  | pollBad =>
    simp only [fdStep] at h
    split at h <;> simp at h
  | writeIn n =>
    simp only [fdStep] at h
    split at h
    · simp only [Option.some.injEq, Except.ok.injEq] at h
      subst h
      refine ⟨⟨rfl, rfl, rfl, rfl, rfl, rfl⟩, rfl, rfl, ?_, fun hp => hp,
        fun hp => hp, ?_⟩
      · show (s.sent ++ s.input.take _) ++ s.input.drop _ = s.sent ++ s.input
        rw [List.append_assoc, List.take_append_drop]
      · intro _ ht
        simp only [Bool.not_eq_true'] at ht
        simp only [List.isEmpty_eq_false] at ht
        exact ht
    · simp at h
  | readOut n =>
    simp only [fdStep] at h
    split at h
    · split at h
      · rename_i hrem
        simp only [Option.some.injEq, Except.ok.injEq] at h
        subst h
        exact ⟨⟨rfl, rfl, rfl, rfl, rfl, rfl⟩, rfl, rfl, rfl,
          fun _ _ => hrem, fun hp => hp, fun hp => hp⟩
      · rename_i hopen hrem
        simp only [Option.some.injEq, Except.ok.injEq] at h
        subst h
        refine ⟨⟨rfl, rfl, rfl, rfl, rfl, rfl⟩, ?_, rfl, rfl, ?_, fun hp => hp,
          fun hp => hp⟩
        · show (s.outbuff ++ s.outRem.take _) ++ s.outRem.drop _ =
            s.outbuff ++ s.outRem
          rw [List.append_assoc, List.take_append_drop]
        · intro _ hfalse
          rw [hopen] at hfalse
          exact absurd hfalse (by simp)
    · simp at h
  | readErr n =>
    simp only [fdStep] at h
    split at h
    · split at h
      · rename_i hrem
        simp only [Option.some.injEq, Except.ok.injEq] at h
        subst h
        exact ⟨⟨rfl, rfl, rfl, rfl, rfl, rfl⟩, rfl, rfl, rfl,
          fun hp => hp, fun _ _ => hrem, fun hp => hp⟩
      · rename_i hopen hrem
        simp only [Option.some.injEq, Except.ok.injEq] at h
        subst h
        refine ⟨⟨rfl, rfl, rfl, rfl, rfl, rfl⟩, rfl, ?_, rfl, fun hp => hp, ?_,
          fun hp => hp⟩
        · show (s.errbuff ++ s.errRem.take _) ++ s.errRem.drop _ =
            s.errbuff ++ s.errRem
          rw [List.append_assoc, List.take_append_drop]
        · intro _ hfalse
          rw [hopen] at hfalse
          exact absurd hfalse (by simp)
    · simp at h
  | readExnOut eno =>
    simp only [fdStep] at h
    split at h
    · split at h
      · split at h
        · rename_i hrem
          simp only [Option.some.injEq, Except.ok.injEq] at h
          subst h
          exact ⟨⟨rfl, rfl, rfl, rfl, rfl, rfl⟩, rfl, rfl, rfl,
            fun _ _ => hrem, fun hp => hp, fun hp => hp⟩
        · simp at h
      · simp at h
    · simp at h
  | readExnErr eno =>
    simp only [fdStep] at h
    split at h
    · split at h
      · split at h
        · rename_i hrem
          simp only [Option.some.injEq, Except.ok.injEq] at h
          subst h
          exact ⟨⟨rfl, rfl, rfl, rfl, rfl, rfl⟩, rfl, rfl, rfl,
            fun hp => hp, fun _ _ => hrem, fun hp => hp⟩
        · simp at h
      · simp at h
    · simp at h

theorem fdSteps_inv :
    ∀ (es : List FdEv) (s s1 : St) (oer : Option IterErr),
      fdSteps s es = some (s1, oer) → stepInv s s1 := by
  intro es
  induction es with
  | nil =>
    intro s s1 oer h
    simp only [fdSteps, Option.some.injEq, Prod.mk.injEq] at h
    rw [← h.1]
    exact stepInv_refl s
  | cons e t ih =>
    intro s s1 oer h
    simp only [fdSteps] at h
    cases hfe : fdStep s e with
    | none => rw [hfe] at h; simp at h
    | some r =>
      rw [hfe] at h
      cases r with
      | error err =>
        simp only [Option.some.injEq, Prod.mk.injEq] at h
        rw [← h.1]
        exact stepInv_refl s
      | ok s2 =>
        exact stepInv_trans (fdStep_ok s s2 e hfe) (ih s2 s1 oer h)

theorem configEq_trans {a b c : St} (h1 : configEq a b) (h2 : configEq b c) :
    configEq a c := by
  obtain ⟨x1, x2, x3, x4, x5, x6⟩ := h1
  obtain ⟨y1, y2, y3, y4, y5, y6⟩ := h2
  exact ⟨x1.trans y1, x2.trans y2, x3.trans y3, x4.trans y4, x5.trans y5,
    x6.trans y6⟩

theorem iterStep_ok (s s1 : St) (ev : Ev) (ys : List (Bytes × Bytes))
    (h : iterStep s ev = some (.ok s1 ys)) :
    configEq s1 s ∧
    joinOut ys ++ s1.outbuff ++ s1.outRem = s.outbuff ++ s.outRem ∧
    joinErr ys ++ s1.errbuff ++ s1.errRem = s.errbuff ++ s.errRem ∧
    s1.sent ++ s1.input = s.sent ++ s.input ∧
    (Wf s → Wf s1) := by
  cases ev with
  | eintr =>
    simp only [iterStep, Option.some.injEq, StepRes.ok.injEq] at h
    obtain ⟨h1, h2⟩ := h
    subst h1
    subst h2
    exact ⟨⟨rfl, rfl, rfl, rfl, rfl, rfl⟩, rfl, rfl, rfl, fun hw => hw⟩
  | timeout => simp [iterStep] at h
  | batch b =>
    cases b with
    | nil => simp [iterStep] at h
    | cons e es =>
      simp only [iterStep] at h
      cases hfs : fdSteps s (e :: es) with
      | none => rw [hfs] at h; simp at h
      | some pr =>
        obtain ⟨s2, oer⟩ := pr
        rw [hfs] at h
        cases oer with
        | some err => simp at h
        | none =>
          simp only [Option.some.injEq, StepRes.ok.injEq] at h
          obtain ⟨h1, h2⟩ := h
          subst h1
          subst h2
          have hinv := fdSteps_inv (e :: es) s s2 none hfs
          obtain ⟨hcfg, hout, herr, hsent, hpo, hpe, hpi⟩ := hinv
          have hdj := drain_join s2.bufsize (!s2.outOpen) (!s2.errOpen)
            s2.outbuff s2.errbuff
          refine ⟨hcfg, ?_, ?_, hsent, ?_⟩
          · show joinOut (drain s2.bufsize (!s2.outOpen) (!s2.errOpen)
                s2.outbuff s2.errbuff).1 ++
              (drain s2.bufsize (!s2.outOpen) (!s2.errOpen) s2.outbuff
                s2.errbuff).2.1 ++ s2.outRem = s.outbuff ++ s.outRem
            rw [hdj.1, hout]
          · show joinErr (drain s2.bufsize (!s2.outOpen) (!s2.errOpen)
                s2.outbuff s2.errbuff).1 ++
              (drain s2.bufsize (!s2.outOpen) (!s2.errOpen) s2.outbuff
                s2.errbuff).2.2 ++ s2.errRem = s.errbuff ++ s.errRem
            rw [hdj.2, herr]
          · intro hw
            obtain ⟨hwo, hwe, hwi⟩ := hw
            refine ⟨?_, ?_, ?_⟩
            · intro hcl
              have hcl2 : s2.outOpen = false := hcl
              constructor
              · show (drain s2.bufsize (!s2.outOpen) (!s2.errOpen) s2.outbuff
                  s2.errbuff).2.1 = []
                rw [hcl2]
                exact drain_closed_out s2.bufsize (!s2.errOpen) s2.outbuff
                  s2.errbuff
              · exact hpo (fun hh => (hwo hh).2) hcl2
            · intro hcl
              have hcl2 : s2.errOpen = false := hcl
              constructor
              · show (drain s2.bufsize (!s2.outOpen) (!s2.errOpen) s2.outbuff
                  s2.errbuff).2.2 = []
                rw [hcl2]
                exact drain_closed_err s2.bufsize (!s2.outOpen) s2.outbuff
                  s2.errbuff
              · exact hpe (fun hh => (hwe hh).2) hcl2
            · exact hpi hwi

theorem iterStep_raised (s s1 : St) (ev : Ev) (e : IterErr)
    (h : iterStep s ev = some (.raised e s1)) : stepInv s s1 := by
  cases ev with
  | eintr => simp [iterStep] at h
  | timeout =>
    simp only [iterStep, Option.some.injEq, StepRes.raised.injEq] at h
    rw [← h.2]
    exact stepInv_refl s
  | batch b =>
    cases b with
    | nil => simp [iterStep] at h
    | cons e0 es =>
      simp only [iterStep] at h
      cases hfs : fdSteps s (e0 :: es) with
      | none => rw [hfs] at h; simp at h
      | some pr =>
        obtain ⟨s2, oer⟩ := pr
        rw [hfs] at h
        cases oer with
        | some err =>
          simp only [Option.some.injEq, StepRes.raised.injEq] at h
          rw [← h.2]
          exact fdSteps_inv (e0 :: es) s s2 (some err) hfs
        | none => simp at h

theorem iterRunAux_main :
    ∀ (evs : List Ev) (s : St) (ys : List (Bytes × Bytes)) (r : RunRes),
      iterRunAux evs s ys = some r →
      configEq r.state s ∧
      joinOut r.ys ++ r.state.outbuff ++ r.state.outRem =
        joinOut ys ++ s.outbuff ++ s.outRem ∧
      joinErr r.ys ++ r.state.errbuff ++ r.state.errRem =
        joinErr ys ++ s.errbuff ++ s.errRem ∧
      r.state.sent ++ r.state.input = s.sent ++ s.input ∧
      (Wf s → ∀ s' ysAll, r = .finished s' ysAll →
        Wf s' ∧ filesOpen s' = false) := by
  intro evs
  induction evs with
  | nil =>
    intro s ys r h
    simp only [iterRunAux] at h
    split at h
    · rename_i hfo
      simp only [Option.some.injEq] at h
      subst h
      refine ⟨⟨rfl, rfl, rfl, rfl, rfl, rfl⟩, rfl, rfl, rfl, ?_⟩
      intro _ s' ysAll hcontra
      exact absurd hcontra (by simp [RunRes.stuck])
    · rename_i hfo
      simp only [Option.some.injEq] at h
      subst h
      refine ⟨⟨rfl, rfl, rfl, rfl, rfl, rfl⟩, rfl, rfl, rfl, ?_⟩
      intro hw s' ysAll heq
      simp only [RunRes.finished.injEq] at heq
      rw [← heq.1]
      exact ⟨hw, by simpa using hfo⟩
  | cons ev rest ih =>
    intro s ys r h
    simp only [iterRunAux] at h
    split at h
    · cases hst : iterStep s ev with
      | none => rw [hst] at h; simp at h
      | some sr =>
        rw [hst] at h
        cases sr with
        | raised e s1 =>
          simp only [Option.some.injEq] at h
          subst h
          have hinv := iterStep_raised s s1 ev e hst
          obtain ⟨hcfg, hout, herr, hsent, _, _, _⟩ := hinv
          refine ⟨hcfg, ?_, ?_, hsent, ?_⟩
          · show joinOut ys ++ s1.outbuff ++ s1.outRem =
              joinOut ys ++ s.outbuff ++ s.outRem
            simp only [List.append_assoc, hout]
          · show joinErr ys ++ s1.errbuff ++ s1.errRem =
              joinErr ys ++ s.errbuff ++ s.errRem
            simp only [List.append_assoc, herr]
          · intro _ s' ysAll hcontra
            exact absurd hcontra (by simp [RunRes.raised])
        | ok s1 ny =>
          have hih := ih s1 (ys ++ ny) r h
          have hstep := iterStep_ok s s1 ev ny hst
          obtain ⟨hcfg1, hout1, herr1, hsent1, hwf1⟩ := hstep
          obtain ⟨hcfg2, hout2, herr2, hsent2, hfin2⟩ := hih
          refine ⟨configEq_trans hcfg2 hcfg1, ?_, ?_, hsent2.trans hsent1, ?_⟩
          · rw [hout2, joinOut_append]
            simp only [List.append_assoc] at hout1 ⊢
            rw [hout1]
          · rw [herr2, joinErr_append]
            simp only [List.append_assoc] at herr1 ⊢
            rw [herr1]
          · intro hw
            exact hfin2 (hwf1 hw)
    · simp only [Option.some.injEq] at h
      subst h
      rename_i hfo
      refine ⟨⟨rfl, rfl, rfl, rfl, rfl, rfl⟩, rfl, rfl, rfl, ?_⟩
      intro hw s' ysAll heq
      simp only [RunRes.finished.injEq] at heq
      rw [← heq.1]
      exact ⟨hw, by simpa using hfo⟩

theorem Wf_iterInit (s : St) (hw : Wf s) : Wf (iterInit s) := by
  obtain ⟨h1, h2, h3⟩ := hw
  refine ⟨h1, h2, ?_⟩
  intro ht
  show s.input ≠ []
  have : (s.stdinOpen && !s.input.isEmpty) = true := ht
  simp only [Bool.and_eq_true, Bool.not_eq_true', List.isEmpty_eq_false]
    at this
  exact this.2

theorem filesOpen_false (s : St) (h : filesOpen s = false) :
    s.stdinOpen = false ∧ s.outOpen = false ∧ s.errOpen = false := by
  simp only [filesOpen, Bool.or_eq_false_iff] at h
  exact ⟨h.1.1, h.1.2, h.2⟩

/-- Round trip for a complete iteration of one handle: the concatenation of
the yielded chunks per channel is the accumulated buffer plus everything
the child writes on that channel. -/
theorem iterRun_roundtrip (s : St) (evs : List Ev) (s' : St)
    (ys : List (Bytes × Bytes)) (hwf : Wf s)
    (h : iterRun s evs = some (.finished s' ys)) :
    joinOut ys = s.outbuff ++ s.outRem ∧ joinErr ys = s.errbuff ++ s.errRem := by
  have hm := iterRunAux_main evs (iterInit s) [] (.finished s' ys) h
  obtain ⟨_, hout, herr, _, hfin⟩ := hm
  have hf := hfin (Wf_iterInit s hwf) s' ys rfl
  obtain ⟨hwf', hfo⟩ := hf
  have hcl := filesOpen_false s' hfo
  have hob : s'.outbuff = [] := (hwf'.1 hcl.2.1).1
  have hor : s'.outRem = [] := (hwf'.1 hcl.2.1).2
  have heb : s'.errbuff = [] := (hwf'.2.1 hcl.2.2).1
  have her : s'.errRem = [] := (hwf'.2.1 hcl.2.2).2
  simp only [RunRes.ys, RunRes.state, hob, hor, heb, her, List.append_nil,
    joinOut_nil, joinErr_nil, List.nil_append] at hout herr
  exact ⟨hout, herr⟩

/-- C1: for every buffering policy value (`bufsize < 1` maximal/unbuffered,
`= 1` line, `> 1` fixed block — the state `s` is arbitrary, so every value
is covered) and every pair of byte streams the child writes to the
configured output channels, iterating a fresh handle to completion and
concatenating the yielded chunks per channel reproduces exactly those
bytes, in FIFO order, with no byte yielded twice and none dropped. -/
theorem c1_roundtrip (s : St) (evs : List Ev) (s' : St)
    (ys : List (Bytes × Bytes)) (hwf : Wf s) (hob : s.outbuff = [])
    (heb : s.errbuff = []) (h : iterRun s evs = some (.finished s' ys)) :
    joinOut ys = s.outRem ∧ joinErr ys = s.errRem := by
  have := iterRun_roundtrip s evs s' ys hwf h
  rw [hob, heb] at this
  simpa using this

/-- C2: `communicate()` (which internally forces `bufsize = -1`) returns
per channel exactly the concatenation of the chunks that manually
iterating the same handle to completion would have yielded for that
channel, and `None` for a channel not configured as pipe/PTY. -/
theorem c2_communicate_iterate (s : St) (evsA evsB : List Ev) (sA : St)
    (ysA : List (Bytes × Bytes)) (acts : List Act) (sB : St)
    (so se : Option Bytes) (hwf : Wf s) (hob : s.outbuff = [])
    (heb : s.errbuff = [])
    (hA : iterRun s evsA = some (.finished sA ysA))
    (hB : communicate s none evsB = some (acts, sB, .ok (so, se))) :
    so = (if s.hasOut then some (joinOut ysA) else none) ∧
    se = (if s.hasErr then some (joinErr ysA) else none) := by
  have hAjoin : joinOut ysA = s.outRem ∧ joinErr ysA = s.errRem := by
    have h0 := iterRun_roundtrip s evsA sA ysA hwf hA
    rw [hob, heb] at h0
    simpa using h0
  simp only [communicate, Option.getD_none, List.append_nil] at hB
  split at hB
  · exact absurd hB (by simp)
  · exact absurd hB (by simp)
  · rename_i s2 ys2 hrun
    simp only [Option.some.injEq, Prod.mk.injEq, Except.ok.injEq] at hB
    obtain ⟨-, -, hso, hse⟩ := hB
    have hwf1 : Wf { s with input := s.input, bufsize := -1 } := by
      obtain ⟨w1, w2, w3⟩ := hwf
      exact ⟨w1, w2, w3⟩
    have hBjoin : joinOut ys2 = s.outRem ∧ joinErr ys2 = s.errRem := by
      have h0 := iterRun_roundtrip { s with input := s.input, bufsize := -1 }
        evsB s2 ys2 hwf1 hrun
      simp only [hob, heb, List.nil_append] at h0
      exact h0
    have hcfg := (iterRunAux_main evsB
      (iterInit { s with input := s.input, bufsize := -1 }) []
      (.finished s2 ys2) hrun).1
    have hhO : s2.hasOut = s.hasOut := hcfg.2.2.1
    have hhE : s2.hasErr = s.hasErr := hcfg.2.2.2.1
    constructor
    · rw [← hso, hhO]
      simp only [hBjoin.1, hAjoin.1]
    · rw [← hse, hhE]
      simp only [hBjoin.2, hAjoin.2]
  · rename_i e s2 ys2 hrun
    exfalso
    split at hB <;> simp at hB

/-- C3: whenever the iteration inside `communicate()` raises
`TimeoutError`, `communicate()` invokes `kill()` and then `wait()` (in
that order, reaping the exit status) before re-raising the `TimeoutError`
to its caller. -/
theorem c3_timeout_kill_then_reap (s : St) (extra : Option Bytes)
    (evs : List Ev) (acts : List Act) (s' : St)
    (res : Except IterErr (Option Bytes × Option Bytes))
    (h : communicate s extra evs = some (acts, s', res))
    (hres : res = .error .timeoutError) :
    acts = [Act.kill, Act.wait] := by
  subst hres
  simp only [communicate] at h
  split at h
  · exact absurd h (by simp)
  · exact absurd h (by simp)
  · exact absurd h (by simp)
  · rename_i e s2 ys2 hrun
    split at h
    · simp only [Option.some.injEq, Prod.mk.injEq] at h
      exact h.1.symm
    · rename_i hne
      simp only [Option.some.injEq, Prod.mk.injEq, Except.error.injEq] at h
      exact absurd h.2.2 hne

/-- C10: after any `communicate()` call that returns or raises, the
handle's `bufsize` is `-1` (the maximal policy, never restored), while the
other spawn-time configuration fields — the timeout, which channels are
configured, and which are PTY-backed — are unchanged. -/
theorem c10_communicate_bufsize (s : St) (extra : Option Bytes)
    (evs : List Ev) (acts : List Act) (s' : St)
    (res : Except IterErr (Option Bytes × Option Bytes))
    (h : communicate s extra evs = some (acts, s', res)) :
    s'.bufsize = -1 ∧ s'.timeout = s.timeout ∧ s'.hasOut = s.hasOut ∧
    s'.hasErr = s.hasErr ∧ s'.outPty = s.outPty ∧ s'.errPty = s.errPty := by
  simp only [communicate] at h
  have key : ∀ (r : RunRes),
      iterRun { s with input := s.input ++ extra.getD [], bufsize := -1 }
        evs = some r → r.state = s' →
      s'.bufsize = -1 ∧ s'.timeout = s.timeout ∧ s'.hasOut = s.hasOut ∧
      s'.hasErr = s.hasErr ∧ s'.outPty = s.outPty ∧ s'.errPty = s.errPty := by
    intro r hrun hstate
    have hcfg := (iterRunAux_main evs
      (iterInit { s with input := s.input ++ extra.getD [], bufsize := -1 })
      [] r hrun).1
    rw [hstate] at hcfg
    exact ⟨hcfg.1, hcfg.2.1, hcfg.2.2.1, hcfg.2.2.2.1, hcfg.2.2.2.2.1,
      hcfg.2.2.2.2.2⟩
  split at h
  · exact absurd h (by simp)
  · exact absurd h (by simp)
  · rename_i s2 ys2 hrun
    simp only [Option.some.injEq, Prod.mk.injEq] at h
    exact key (.finished s2 ys2) hrun h.2.1
  · rename_i e s2 ys2 hrun
    split at h
    · simp only [Option.some.injEq, Prod.mk.injEq] at h
      exact key (.raised e s2 ys2) hrun h.2.1
    · simp only [Option.some.injEq, Prod.mk.injEq] at h
      exact key (.raised e s2 ys2) hrun h.2.1

/-! ### Remaining claims -/

/-- Per-step shape of line-buffered chunks: any chunk yielded by one
iteration of the loop with `bufsize = 1` either ends in a newline or was
flushed with its channel closed (end-of-file). -/
theorem iterStep_line_chunks (s s1 : St) (ev : Ev)
    (ys : List (Bytes × Bytes)) (hbz : s.bufsize = 1)
    (h : iterStep s ev = some (.ok s1 ys)) (p : Bytes × Bytes) (hp : p ∈ ys) :
    (p.1 ≠ [] → lastByte p.1 = some 10 ∨ s1.outOpen = false) ∧
    (p.2 ≠ [] → lastByte p.2 = some 10 ∨ s1.errOpen = false) := by
  cases ev with
  | eintr =>
    simp only [iterStep, Option.some.injEq, StepRes.ok.injEq] at h
    rw [← h.2] at hp
    simp at hp
  | timeout => simp [iterStep] at h
  | batch b =>
    cases b with
    | nil => simp [iterStep] at h
    | cons e es =>
      simp only [iterStep] at h
      cases hfs : fdSteps s (e :: es) with
      | none => rw [hfs] at h; simp at h
      | some pr =>
        obtain ⟨s2, oer⟩ := pr
        rw [hfs] at h
        cases oer with
        | some err => simp at h
        | none =>
          simp only [Option.some.injEq, StepRes.ok.injEq] at h
          obtain ⟨h1, h2⟩ := h
          have hbz2 : s2.bufsize = 1 :=
            (fdSteps_inv (e :: es) s s2 none hfs).1.1.trans hbz
          rw [← h2] at hp
          rw [hbz2] at hp
          have hdl := drain_line (!s2.outOpen) (!s2.errOpen) s2.outbuff
            s2.errbuff p hp
          have hopen1 : s1.outOpen = s2.outOpen := by rw [← h1]
          have hopen2 : s1.errOpen = s2.errOpen := by rw [← h1]
          constructor
          · intro hne
            rcases hdl.1 hne with hh | hh
            · exact Or.inl hh
            · right
              rw [hopen1]
              simpa using hh
          · intro hne
            rcases hdl.2 hne with hh | hh
            · exact Or.inl hh
            · right
              rw [hopen2]
              simpa using hh

/-- C4 counterexample: the claim that each poll blocks for at most the
remaining portion of the timeout is false.  With a 1-second timeout the
code passes the full 1000 ms to every `poller.poll` call, so a schedule in
which two consecutive polls each block 900 ms is consistent with the code
(`timedOkB`), yet its second step exceeds the 100 ms remaining
(`remainingBoundB` fails). -/
theorem c4_counterexample :
    timedOkB c4St c4Run = true ∧ remainingBoundB c4St 0 c4Run = false := by
  constructor
  · decide
  · decide

/-- C4 amended: each step of the loop blocks for at most the handle's full
configured timeout (which is re-armed on every step because the loop
passes `self.timeout*1000` to every poll call, and the timeout field never
changes); a poll that returns with nothing ready raises `TimeoutError`;
and a POLLERR/POLLNVAL condition on a ready descriptor raises
`PollError`. -/
theorem c4_amended :
    (∀ (s : St) (t : TEv) (ts : List TEv) (m : Nat),
        timedOkB s (t :: ts) = true → pollArgMs s = some m → t.d ≤ m) ∧
    (∀ (s s1 : St) (ev : Ev) (ys : List (Bytes × Bytes)),
        iterStep s ev = some (.ok s1 ys) → pollArgMs s1 = pollArgMs s) ∧
    (∀ s : St, iterStep s .timeout = some (.raised .timeoutError s)) ∧
    (∀ s : St, filesOpen s = true →
        fdStep s .pollBad = some (.error .pollError)) := by
  refine ⟨?_, ?_, ?_, ?_⟩
  · intro s t ts m h hm
    simp only [timedOkB, Bool.and_eq_true] at h
    have hd := h.1
    rw [durOkB, hm] at hd
    exact of_decide_eq_true hd
  · intro s s1 ev ys h
    have := (iterStep_ok s s1 ev ys h).1.2.1
    simp only [pollArgMs, this]
  · intro s
    rfl
  · intro s h
    simp [fdStep, h]

/-- C4 witness: a 500 ms poll step is within the code's budget on `c4St`
(timeout 1 s), and a POLLERR/POLLNVAL batch on it raises `PollError`. -/
theorem c4_witness :
    (500 : Nat) ≤ 1000 ∧ fdStep c4St .pollBad = some (.error .pollError) :=
  ⟨c4_amended.1 c4St ⟨500, .eintr⟩ [] 1000 (by decide) (by decide),
   c4_amended.2.2.2 c4St (by decide)⟩

/-- C5: under line buffering every yielded chunk either is a complete
newline-terminated segment or is flushed with its channel at end-of-file;
and iterating a spawn of `printf 'a\nb\nc\n'` with line buffering yields
exactly the three chunks `"a\n"`, `"b\n"`, `"c\n"` in that order. -/
theorem c5_line_buffering :
    (∀ (s : St) (ev : Ev) (s1 : St) (ys : List (Bytes × Bytes))
       (p : Bytes × Bytes), s.bufsize = 1 →
       iterStep s ev = some (.ok s1 ys) → p ∈ ys →
       (p.1 ≠ [] → lastByte p.1 = some 10 ∨ s1.outOpen = false) ∧
       (p.2 ≠ [] → lastByte p.2 = some 10 ∨ s1.errOpen = false)) ∧
    iterRun c5WSt c5WEvs = some (.finished c5WFin c5WYs) ∧
    c5WYs.map Prod.fst = [[97, 10], [98, 10], [99, 10]] := by
  refine ⟨?_, by decide, by decide⟩
  intro s ev s1 ys p hbz h hp
  exact iterStep_line_chunks s s1 ev ys hbz h p hp

/-- C5 witness: the first batch of the `printf` run yields the line
chunks, and the first of them indeed ends in a newline. -/
theorem c5_witness :
    (([97, 10] : Bytes) ≠ [] →
      lastByte [97, 10] = some 10 ∨ c5WMid.outOpen = false) ∧
    (([] : Bytes) ≠ [] →
      lastByte ([] : Bytes) = some 10 ∨ c5WMid.errOpen = false) :=
  c5_line_buffering.1 c5WSt (.batch [.readOut 99]) c5WMid c5WYs
    ([97, 10], []) (by decide) (by decide) (by decide)

/-- C6 counterexample: under the fixed-block policy (`bufsize = 2`) with
pending input `"abc"`, one maximally cooperative write step offers and
writes only `input[:2] = "ab"`, not all remaining bytes: a byte is left
pending even though the OS accepted everything offered, refuting "all
remaining bytes otherwise". -/
theorem c6_counterexample :
    fdStep c6CexSt (.writeIn 999) = some (.ok c6CexSt') ∧
    writeChunkReq c6CexSt ≠ c6CexSt.input ∧
    min (999 + 1) (writeChunkReq c6CexSt).length =
      (writeChunkReq c6CexSt).length ∧
    c6CexSt'.input = [99] := by
  refine ⟨by decide, by decide, by decide, by decide⟩

/-- C6 amended: pending stdin input is consumed strictly left-to-right
with no byte duplicated or reordered, chunked up to and including the next
newline under the line policy and up to `itersize` bytes otherwise (1 MiB
for maximal/unbuffered, the block size for fixed-block); stdin is closed
and deregistered exactly when no input remains (both at iterator start-up
and after a write); and spawning `cat` with stdin=pipe, stdout=pipe and
input `"hello"`, then calling `communicate()`, returns
`("hello", None)`. -/
theorem c6_amended :
    (∀ (s s' : St) (n : Nat), fdStep s (.writeIn n) = some (.ok s') →
        s'.sent ++ s'.input = s.sent ++ s.input ∧
        (s'.stdinOpen = false ↔ s'.input = [])) ∧
    (∀ s : St, s.bufsize = 1 →
        writeChunkReq s = s.input.take (lineSize s.input)) ∧
    (∀ s : St, s.bufsize ≠ 1 → writeChunkReq s =
        s.input.take (if s.bufsize < 1 then 2 ^ 20 else s.bufsize.toNat)) ∧
    (∀ s : St, (iterInit s).stdinOpen = (s.stdinOpen && !s.input.isEmpty)) ∧
    communicate c6CatSt none c6CatEvs =
      some ([Act.wait], c6CatFin, .ok (some [104, 101, 108, 108, 111], none)) := by
  refine ⟨?_, ?_, ?_, fun s => rfl, rfl⟩
  · intro s s' n h
    have hsent := (fdStep_ok s s' (.writeIn n) h).2.2.2.1
    refine ⟨hsent, ?_⟩
    simp only [fdStep] at h
    split at h
    · simp only [Option.some.injEq, Except.ok.injEq] at h
      subst h
      show (!(s.input.drop _).isEmpty) = false ↔ s.input.drop _ = []
      simp
    · simp at h
  · intro s hbz
    simp [writeChunkReq, hbz]
  · intro s hbz
    simp [writeChunkReq, hbz]

/-- C6 witness: the write step on `c6CexSt` consumes input left-to-right
and leaves stdin open (input remains); and the line-policy chunk of the
`cat` handle is the newline-bounded prefix of its input. -/
theorem c6_witness :
    (c6CexSt'.sent ++ c6CexSt'.input = c6CexSt.sent ++ c6CexSt.input ∧
     (c6CexSt'.stdinOpen = false ↔ c6CexSt'.input = [])) ∧
    writeChunkReq c6CatSt = c6CatSt.input.take (lineSize c6CatSt.input) :=
  ⟨c6_amended.1 c6CexSt c6CexSt' 999 (by decide),
   c6_amended.2.1 c6CatSt (by decide)⟩

/-- C7: an `OSError`/`IOError` with errno 5 (EIO) on a PTY-backed
descriptor whose stream is exhausted is converted locally into an ordinary
end-of-file — the channel is closed and deregistered, nothing is raised —
while every other read error (non-PTY descriptor or other errno)
propagates unchanged out of the step. -/
theorem c7_pty_read_error (s : St) (eno : Nat) (ho : s.outOpen = true)
    (he : s.errOpen = true) :
    (s.outPty = true → eno = 5 → s.outRem = [] →
      fdStep s (.readExnOut eno) = some (.ok { s with outOpen := false })) ∧
    (s.outPty = false ∨ eno ≠ 5 →
      fdStep s (.readExnOut eno) = some (.error (.ioError eno))) ∧
    (s.errPty = true → eno = 5 → s.errRem = [] →
      fdStep s (.readExnErr eno) = some (.ok { s with errOpen := false })) ∧
    (s.errPty = false ∨ eno ≠ 5 →
      fdStep s (.readExnErr eno) = some (.error (.ioError eno))) := by
  refine ⟨?_, ?_, ?_, ?_⟩
  · intro hp h5 hrem
    simp [fdStep, ho, hp, h5, hrem]
  · intro hor
    have : ¬(s.outPty = true ∧ eno = 5) := by
      rcases hor with h1 | h1
      · intro hh
        rw [h1] at hh
        exact absurd hh.1 (by simp)
      · intro hh
        exact h1 hh.2
    simp [fdStep, ho, this]
  · intro hp h5 hrem
    simp [fdStep, he, hp, h5, hrem]
  · intro hor
    have : ¬(s.errPty = true ∧ eno = 5) := by
      rcases hor with h1 | h1
      · intro hh
        rw [h1] at hh
        exact absurd hh.1 (by simp)
      · intro hh
        exact h1 hh.2
    simp [fdStep, he, this]

/-- C7 witness: on the PTY-backed handle `c7WSt`, an EIO read error on
stdout becomes an end-of-file close, and an EPIPE-style errno propagates. -/
theorem c7_witness :
    fdStep c7WSt (.readExnOut 5) = some (.ok { c7WSt with outOpen := false }) ∧
    fdStep c7WSt (.readExnErr 13) = some (.error (.ioError 13)) :=
  ⟨(c7_pty_read_error c7WSt 5 rfl rfl).1 rfl rfl rfl,
   (c7_pty_read_error c7WSt 13 rfl rfl).2.2.2 (Or.inr (by decide))⟩

/-- C8: `gke_onprem_test.RunCmd` accepts the `wait` and `counter` retry
arguments but invokes the command exactly once regardless of them —
contradicting its own docstring ("counter: number of retry times if
command failed") and the claimed bounded retry; on a failing command with
`counter = 3` it still runs once and returns `(rc, err)` non-exceptionally,
while strict-mode `iterpopen.RunCmd` raises `ReturncodeError` carrying the
returncode and the command. -/
theorem c8_runcmd :
    (∀ (timeout wait counter : Nat) (exec : ExecResult),
        (gkeRunCmd timeout wait counter exec).2 = 1) ∧
    gkeRunCmd 15 2 3 ⟨1, [], [104, 105]⟩ = ((1, [104, 105]), 1) ∧
    RunCmd "false" 1 none none = .error ⟨1, "false"⟩ ∧
    RunCmd "true" 0 (some [104]) none = .ok (.onlyOut [104]) := by
  refine ⟨?_, rfl, rfl, rfl⟩
  intro timeout wait counter exec
  unfold gkeRunCmd
  split
  · rfl
  · rfl

/-- C9: `poll()` never waits for the status mutex — when the lock is held
by an in-flight `wait()` or multiplexer step it immediately returns the
stored (possibly stale) returncode without acquiring the lock and without
touching the process; when the lock is free, `poll()` acquires it (and
updates the stored state from the OS), and `wait()` always acquires it
before reaping. -/
theorem c9_poll_nonblocking :
    (∀ (stored osStatus : Option Int),
        pollStatus false stored osStatus = (stored, stored, false)) ∧
    (∀ (stored osStatus : Option Int),
        (pollStatus true stored osStatus).2.2 = true) ∧
    (∀ (osStatus : Option Int),
        (pollStatus true none osStatus).1 = osStatus) ∧
    (∀ (stored : Option Int) (osExit : Int),
        (waitStatus stored osExit).2.2 = true) := by
  refine ⟨fun stored osStatus => rfl, ?_, fun osStatus => rfl, ?_⟩
  · intro stored osStatus
    cases stored <;> rfl
  · intro stored osExit
    cases stored <;> rfl

/-- C1 witness: a concrete line-buffered run with both channels piped. -/
theorem c1_witness :
    joinOut c1WYs = c1WSt.outRem ∧ joinErr c1WYs = c1WSt.errRem :=
  c1_roundtrip c1WSt c1WEvs c1WFin c1WYs (by decide) (by decide) (by decide)
    (by decide)

/-- C2 witness: on the handle `c2WSt`, `communicate` and manual iteration
agree channel-wise. -/
theorem c2_witness :
    (some [104, 10] : Option Bytes) =
      (if c2WSt.hasOut then some (joinOut c2WYs) else none) ∧
    (none : Option Bytes) =
      (if c2WSt.hasErr then some (joinErr c2WYs) else none) :=
  c2_communicate_iterate c2WSt c2WEvs c2WEvs c2WFinA c2WYs [Act.wait]
    c2WFinB (some [104, 10]) none (by decide) (by decide) (by decide)
    (by decide) rfl

/-- C3 witness: a concrete timed-out `communicate` kills then reaps. -/
theorem c3_witness :
    communicate c3WSt none [Ev.timeout] =
      some ([Act.kill, Act.wait], c3WFin, .error .timeoutError) ∧
    ([Act.kill, Act.wait] : List Act) = [Act.kill, Act.wait] :=
  ⟨rfl,
   c3_timeout_kill_then_reap c3WSt none [Ev.timeout] [Act.kill, Act.wait]
     c3WFin (.error .timeoutError) rfl rfl⟩

/-- C10 witness: a concrete `communicate` run leaves `bufsize = -1` and
the other configuration fields untouched. -/
theorem c10_witness :
    c2WFinB.bufsize = -1 ∧ c2WFinB.timeout = c2WSt.timeout ∧
    c2WFinB.hasOut = c2WSt.hasOut ∧ c2WFinB.hasErr = c2WSt.hasErr ∧
    c2WFinB.outPty = c2WSt.outPty ∧ c2WFinB.errPty = c2WSt.errPty :=
  c10_communicate_bufsize c2WSt none c2WEvs [Act.wait] c2WFinB
    (.ok (some [104, 10], none)) rfl

end IterPopen
